import Mathlib

/-!
Shallow embedding of the task-period placement and timeline-layout logic of
`src/index.tsx` (a React/TypeScript single-page app).  The embedded functions
are `handleTaskUpdate`, `handleAddTask` (the `setPlan` updater bodies) and
`GanttView`'s `getBarPosition`, together with the JavaScript `Date` behaviour
they rely on.

Modelling conventions:
* JavaScript `Date` values are modelled as `Option Int` — `some t` is a time
  value of `t` milliseconds since the Unix epoch, `none` is an Invalid Date
  (`NaN` time value).  The runtime timezone is assumed to be UTC, so
  `getMonth`/`getDate` read the UTC calendar fields.
* `new Date(s)` is modelled for the date-string shapes this program produces:
  ISO `YYYY-MM-DD`, `YYYY-MM` and `YYYY` (all parsed as UTC midnight); every
  other string yields an Invalid Date.
* JS number results that are `NaN` (or otherwise non-finite, e.g. after a
  division by zero) are modelled as `none : Option ℚ`; finite values are exact
  rationals.  `NaN`-involving comparisons (`<`, `>=`) are `false`, matching JS.
-/

namespace AGMSC

/-- True when the (proleptic Gregorian) year is a leap year. -/
def isLeapYear (y : Nat) : Bool :=
  (y % 4 == 0 && y % 100 != 0) || (y % 400 == 0)

/-- Number of days in month `m` (1–12) of year `y`. -/
def daysInMonth (y m : Nat) : Nat :=
  if m = 2 then (if isLeapYear y then 29 else 28)
  else if m = 4 ∨ m = 6 ∨ m = 9 ∨ m = 11 then 30
  else 31

/-- Days since 1970-01-01 of the civil date `(y, m, d)` (Gregorian calendar,
month 1–12, day 1-based).  Standard civil-to-epoch-day conversion. -/
def daysFromCivil (y : Int) (m d : Nat) : Int :=
  let y2 : Int := if m ≤ 2 then y - 1 else y
  let era : Int := Int.fdiv y2 400
  let yoe : Nat := (y2 - era * 400).toNat
  let mp : Nat := (m + 9) % 12
  let doy : Nat := (153 * mp + 2) / 5 + d - 1
  let doe : Nat := yoe * 365 + yoe / 4 - yoe / 100 + doy
  era * 146097 + (doe : Int) - 719468

/-- Civil date `(y, m, d)` of an epoch-day count (inverse of `daysFromCivil`). -/
def civilFromDays (z0 : Int) : Int × Nat × Nat :=
  let z : Int := z0 + 719468
  let era : Int := Int.fdiv z 146097
  let doe : Nat := (z - era * 146097).toNat
  let yoe : Nat := (doe - doe / 1460 + doe / 36524 - doe / 146096) / 365
  let doy : Nat := doe - (365 * yoe + yoe / 4 - yoe / 100)
  let mp : Nat := (5 * doy + 2) / 153
  let d : Nat := doy - (153 * mp + 2) / 5 + 1
  let m : Nat := if mp < 10 then mp + 3 else mp - 9
  (if m ≤ 2 then (yoe : Int) + era * 400 + 1 else (yoe : Int) + era * 400, m, d)

/-- Milliseconds per day, the constant `1000 * 3600 * 24` of the source. -/
def msPerDay : Int := 86400000

/-- A JavaScript `Date`: `some t` holds the time value in milliseconds since
the epoch, `none` is an Invalid Date (`NaN` time value). -/
abbrev JSDate := Option Int

/-- Numeric value of a list of decimal digit characters. -/
def digitsVal (cs : List Char) : Nat :=
  cs.foldl (fun n c => n * 10 + (c.toNat - 48)) 0

/-- Parse a character list as an unsigned decimal numeral. -/
def digitsToNat (cs : List Char) : Option Nat :=
  if cs ≠ [] ∧ cs.all Char.isDigit then some (digitsVal cs) else none

/-- Model of `new Date(s)`: parses the ISO forms `YYYY-MM-DD`, `YYYY-MM` and
`YYYY` as UTC midnight; any other string gives an Invalid Date.  These are the
only shapes of date string the program constructs. -/
def jsNewDate (s : String) : JSDate :=
  match (s.toList.splitOn '-').map digitsToNat with
  | [some y] =>
      if s.length = 4 then some (daysFromCivil y 1 1 * msPerDay) else none
  | [some y, some m] =>
      if s.length = 7 ∧ 1 ≤ m ∧ m ≤ 12 then
        some (daysFromCivil y m 1 * msPerDay)
      else none
  | [some y, some m, some d] =>
      if s.length = 10 ∧ 1 ≤ m ∧ m ≤ 12 ∧ 1 ≤ d ∧ d ≤ daysInMonth y m then
        some (daysFromCivil y m d * msPerDay)
      else none
  | _ => none

/-- `Date.prototype.getTime`: the time value (`NaN` for an Invalid Date). -/
def jsGetTime (d : JSDate) : Option Int := d

/-- `Date.prototype.getMonth` in a UTC environment: 0-based calendar month
(January = 0, August = 7); `NaN` for an Invalid Date. -/
def jsGetMonth (d : JSDate) : Option Nat :=
  d.map (fun t => (civilFromDays (Int.fdiv t msPerDay)).2.1 - 1)

/-- `Date.prototype.getDate` in a UTC environment: 1-based day of month. -/
def jsGetDate (d : JSDate) : Option Nat :=
  d.map (fun t => (civilFromDays (Int.fdiv t msPerDay)).2.2)

/-- `Date.prototype.setDate n`: replaces the day-of-month by `n`, normalising
overflow by day arithmetic from the first of the date's current month (the
date keeps its own year and month as the base).  `NaN` inputs stay invalid. -/
def jsSetDate (d : JSDate) (n : Option Nat) : JSDate :=
  match d, n with
  | some t, some k =>
      let c := civilFromDays (Int.fdiv t msPerDay)
      some ((daysFromCivil c.1 c.2.1 1 + ((k : Int) - 1)) * msPerDay)
  | _, _ => none

/-- JS `>=` on two month numbers; any comparison involving `NaN` is false. -/
def jsGeNat (a b : Option Nat) : Bool :=
  match a, b with
  | some x, some y => decide (y ≤ x)
  | _, _ => false

/-- JS `<` on two `Date`s (compared via their time values); any comparison
involving an Invalid Date is false. -/
def jsLtDate (a b : JSDate) : Bool :=
  match a, b with
  | some x, some y => decide (x < y)
  | _, _ => false

/-- `parseInt(s, 10)`: value of the leading decimal-digit prefix, `NaN` when
there is none (signs and leading whitespace do not occur in this program). -/
def jsParseInt (s : String) : Option Nat :=
  let ds := s.toList.takeWhile Char.isDigit
  if ds = [] then none else some (digitsVal ds)

/-- `s.split('-')[0]`: the text before the first `'-'` (the whole string when
there is none). -/
def splitFirst (s : String) : String :=
  ((s.toList.splitOn '-').headD []).asString

/-! Data model (`interface Excerpt / Attachment / Task / Plan` of the source).
The string-literal unions `status` and `priority` are modelled as strings. -/

structure Excerpt where
  source : String
  text : String
deriving DecidableEq, Repr

structure Attachment where
  fileName : String
  fileContent : String
  fileType : String
deriving DecidableEq, Repr

structure Task where
  id : Nat
  taskName : String
  responsible : String
  startDate : String
  dueDate : String
  status : String
  priority : String
  source : String
  comments : String
  excerpts : List Excerpt := []
  attachments : List Attachment := []
deriving DecidableEq, Repr

structure Period where
  periodName : String
  tasks : List Task
deriving DecidableEq, Repr

structure Plan where
  termYear : String
  chairperson : String
  periods : List Period
deriving DecidableEq, Repr

/-! The operations of the source: `handleTaskUpdate` and `handleAddTask` model
the bodies of the `setPlan` updaters (the `prevPlan === null` short-circuit of
the React wrapper is state plumbing and is outside the model; the caller of
`handleAddTask` has already stamped `id` / `source` onto the new task, exactly
as `src/index.tsx` does before entering the updater). -/

/-- The callback `handleTaskUpdate` maps over the periods
(src/index.tsx:319-327): find the first task whose `id` equals the updated
task's and overwrite it in a copied list; a period without a match is
returned unchanged. -/
def updatePeriod (updatedTask : Task) (period : Period) : Period :=
  match period.tasks.findIdx? (fun t => t.id == updatedTask.id) with
  | some taskIndex => { period with tasks := period.tasks.set taskIndex updatedTask }
  | none => period

/-- `handleTaskUpdate` (src/index.tsx:314-330), the `setPlan` updater body:
map `updatePeriod` over every period of the plan. -/
def handleTaskUpdate (p : Plan) (updatedTask : Task) : Plan :=
  { p with periods := p.periods.map (updatePeriod updatedTask) }

/-- The reference month of a period during `handleAddTask`'s scan
(src/index.tsx:353): `new Date(period.tasks[0]?.dueDate ||
prevPlan.termYear.split('-')[0]).getMonth()`.  The `||` falls back when the
period has no tasks or its first task's due date is the empty string. -/
def periodMonth (termYear : String) (period : Period) : Option Nat :=
  jsGetMonth (jsNewDate
    (match period.tasks.head? with
     | some t => if t.dueDate = "" then splitFirst termYear else t.dueDate
     | none => splitFirst termYear))

/-- The month of a task's due date, `new Date(task.dueDate).getMonth()`. -/
def taskDueMonth (t : Task) : Option Nat :=
  jsGetMonth (jsNewDate t.dueDate)

/-- Comparator of `period.tasks.sort((a,b) => new Date(a.dueDate).getTime() -
new Date(b.dueDate).getTime())`.  For tasks with parseable due dates this is
the numeric order of the time values; a `NaN` time value makes the JS
comparator inconsistent and the engine's order implementation-defined, which
the model fixes as `NaN`-first.  `jsLeTime` is that order on time values. -/
def jsLeTime : Option Int → Option Int → Bool
  | some x, some y => decide (x ≤ y)
  | none, _ => true
  | some _, none => false

/-- The due-date comparator order on tasks; see `jsLeTime`. -/
def dueLe (a b : Task) : Bool :=
  jsLeTime (jsGetTime (jsNewDate a.dueDate)) (jsGetTime (jsNewDate b.dueDate))

/-- Insert `a` into `l` before the first element `b` with `dueLe a b`. -/
def orderedInsertDue (a : Task) : List Task → List Task
  | [] => [a]
  | b :: l => if dueLe a b then a :: b :: l else b :: orderedInsertDue a l

/-- Model of `Array.prototype.sort` with the due-date comparator: since
ES2019 `sort` is a stable sort, whose result on a consistent comparator is
the unique stable order; insertion sort realises it. -/
def sortByDue : List Task → List Task
  | [] => []
  | a :: l => orderedInsertDue a (sortByDue l)

/-- The `for (const period of newPlan.periods)` scan of `handleAddTask`
(src/index.tsx:352-360): walk the periods in order; at the first period whose
reference month is `<=` the new task's due-date month, push the task, re-sort
that period by due date and stop.  `none` when no period matches. -/
def insertLoop (termYear : String) (newTask : Task) : List Period → Option (List Period)
  | [] => none
  | period :: rest =>
      if jsGeNat (taskDueMonth newTask) (periodMonth termYear period) then
        some ({ period with tasks := sortByDue (period.tasks ++ [newTask]) } :: rest)
      else
        (insertLoop termYear newTask rest).map (period :: ·)

/-- `handleAddTask` (src/index.tsx:339-371), the `setPlan` updater body: scan
for a matching period; when none matches, fall back to the first period (push
and re-sort) or, for a plan with no periods, create a period `"General"`
holding just the new task. -/
def handleAddTask (p : Plan) (newTask : Task) : Plan :=
  match insertLoop p.termYear newTask p.periods with
  | some ps => { p with periods := ps }
  | none =>
      match p.periods with
      | [] => { p with periods := [{ periodName := "General", tasks := [newTask] }] }
      | p0 :: rest =>
          { p with periods := { p0 with tasks := sortByDue (p0.tasks ++ [newTask]) } :: rest }

/-- All tasks of a plan, in period order. -/
def Plan.allTasks (p : Plan) : List Task :=
  p.periods.flatMap Period.tasks

/-! Timeline layout: `GanttView`'s term boundaries and `getBarPosition`
(src/index.tsx:1021-1051).  JS floating-point results are modelled as exact
rationals; `NaN` (and the non-finite results of a division by zero) as
`none`. -/

/-- Lift a time value to a rational number of milliseconds. -/
def timeQ (t : Option Int) : Option ℚ :=
  t.map fun x => (x : ℚ)

/-- JS subtraction: `NaN` propagates. -/
def jqSub (a b : Option ℚ) : Option ℚ :=
  match a, b with
  | some x, some y => some (x - y)
  | _, _ => none

/-- JS addition: `NaN` propagates. -/
def jqAdd (a b : Option ℚ) : Option ℚ :=
  match a, b with
  | some x, some y => some (x + y)
  | _, _ => none

/-- JS multiplication: `NaN` propagates. -/
def jqMul (a b : Option ℚ) : Option ℚ :=
  match a, b with
  | some x, some y => some (x * y)
  | _, _ => none

/-- JS division: `NaN` propagates, and a zero divisor (whose JS result is an
infinity or `NaN`) is likewise modelled as a non-finite result. -/
def jqDiv (a b : Option ℚ) : Option ℚ :=
  match a, b with
  | some x, some y => if y = 0 then none else some (x / y)
  | _, _ => none

/-- `Math.max(c, x)` with a constant first argument: `NaN` propagates. -/
def jsMax (c : ℚ) (x : Option ℚ) : Option ℚ :=
  x.map (max c)

/-- JS `<` on numbers: comparisons involving `NaN` are false. -/
def jqLt (a b : Option ℚ) : Bool :=
  match a, b with
  | some x, some y => decide (x < y)
  | _, _ => false

/-- `new Date(`${startYear}-08-01`)` where `startYear =
parseInt(termYear.split('-')[0], 10)` (src/index.tsx:1022-1023).  A `NaN`
`startYear` interpolates into a string no date parse accepts. -/
def termStartDate (termYear : String) : JSDate :=
  match jsParseInt (splitFirst termYear) with
  | some y => jsNewDate (toString y ++ "-08-01")
  | none => none

/-- `new Date(`${startYear + 1}-07-31`)` (src/index.tsx:1024). -/
def termEndDate (termYear : String) : JSDate :=
  match jsParseInt (splitFirst termYear) with
  | some y => jsNewDate (toString (y + 1) ++ "-07-31")
  | none => none

/-- `totalDays = (endDate.getTime() - startDate.getTime()) / (1000*3600*24)`
(src/index.tsx:1025). -/
def totalDaysQ (termYear : String) : Option ℚ :=
  jqDiv (jqSub (timeQ (jsGetTime (termEndDate termYear)))
               (timeQ (jsGetTime (termStartDate termYear))))
        (some ((msPerDay : Int) : ℚ))

/-- The `{ left, width }` pair `getBarPosition` returns; the source renders
each component as a `"<n>%"` CSS string, modelled by its numeric value. -/
structure BarPos where
  left : Option ℚ
  width : Option ℚ
deriving DecidableEq, Repr

/-- `getBarPosition` (src/index.tsx:1027-1051).  When either date field is
absent (an empty string is the only falsy string), the task is drawn as a
marker at its due date with a pinned `1%` width.  Otherwise the bar runs from
`startDate` over `duration` days, where a due date earlier than the start
date is first rewritten by `taskEnd.setDate(taskStart.getDate() + 1)` and the
duration floored at one day; `left` is clamped to `0` and `width` to `0.5`. -/
def getBarPosition (termYear : String) (task : Task) : BarPos :=
  let startDate := termStartDate termYear
  let totalDays := totalDaysQ termYear
  if task.startDate = "" ∨ task.dueDate = "" then
    let taskStart := jsNewDate task.dueDate
    let offset := jqDiv (jqSub (timeQ (jsGetTime taskStart)) (timeQ (jsGetTime startDate)))
                        (some ((msPerDay : Int) : ℚ))
    let left := jqMul (jqDiv offset totalDays) (some 100)
    { left := jsMax 0 left, width := some 1 }
  else
    let taskStart := jsNewDate task.startDate
    let taskEnd0 := jsNewDate task.dueDate
    let taskEnd :=
      if jsLtDate taskEnd0 taskStart then
        jsSetDate taskEnd0 ((jsGetDate taskStart).map (· + 1))
      else taskEnd0
    let offset := jqDiv (jqSub (timeQ (jsGetTime taskStart)) (timeQ (jsGetTime startDate)))
                        (some ((msPerDay : Int) : ℚ))
    let duration0 := jqAdd (jqDiv (jqSub (timeQ (jsGetTime taskEnd)) (timeQ (jsGetTime taskStart)))
                                  (some ((msPerDay : Int) : ℚ)))
                           (some 1)
    let duration := if jqLt duration0 (some 1) then some 1 else duration0
    let left := jqMul (jqDiv offset totalDays) (some 100)
    let width := jqMul (jqDiv duration totalDays) (some 100)
    { left := jsMax 0 left, width := jsMax (1/2) width }

/-- Tasks of a period sorted ascending by due date (the order the comparator
of src/index.tsx:355 establishes). -/
def duSorted (l : List Task) : Prop :=
  List.Pairwise (fun a b => dueLe a b = true) l

/-! Concrete fixtures used by the example-based theorems and the witnesses.
`mkTask` fills the non-temporal fields the way `handleAddTask` stamps a
user-added task. -/

/-- A task fixture with the given id and date fields. -/
def mkTask (i : Nat) (s d : String) : Task :=
  { id := i, taskName := "task", responsible := "chair", startDate := s, dueDate := d,
    status := "Not-Started", priority := "Medium", source := "User Added", comments := "" }

/-- The August-reference period of the worked example: first task due 2025-08-15. -/
def periodAug : Period :=
  { periodName := "Post-Course", tasks := [mkTask 1 "2025-08-01" "2025-08-15"] }

/-- The November-reference period of the worked example: first task due 2025-11-15. -/
def periodNov : Period :=
  { periodName := "Winter Prep", tasks := [mkTask 2 "2025-11-01" "2025-11-15"] }

/-- Term 2025-2026 with periods whose reference months are August and November. -/
def planAugNov : Plan :=
  { termYear := "2025-2026", chairperson := "Chair", periods := [periodAug, periodNov] }

/-- New user task due 2025-10-01 (calendar month 10, `getMonth` 9). -/
def taskOct : Task := mkTask 99 "2025-09-20" "2025-10-01"

/-- New user task due 2026-01-15 (`getMonth` 0, earlier than every reference month). -/
def taskJan : Task := mkTask 98 "2025-12-20" "2026-01-15"

/-- Term 2025-2026 with periods whose reference months are August, November,
February and May (first tasks due in those months). -/
def planFour : Plan :=
  { termYear := "2025-2026", chairperson := "Chair",
    periods := [ { periodName := "A", tasks := [mkTask 1 "2025-08-01" "2025-08-05"] },
                 { periodName := "B", tasks := [mkTask 2 "2025-11-01" "2025-11-05"] },
                 { periodName := "C", tasks := [mkTask 3 "2026-02-01" "2026-02-05"] },
                 { periodName := "D", tasks := [mkTask 4 "2026-05-01" "2026-05-05"] } ] }

/-- New user task due 2025-11-20 (November, `getMonth` 10). -/
def taskNov : Task := mkTask 97 "2025-11-10" "2025-11-20"

/-- A plan with no periods at all. -/
def planEmpty : Plan := { termYear := "2025-2026", chairperson := "Chair", periods := [] }

/-- A task whose start date lies before the 2025-2026 term start. -/
def taskJuly : Task := mkTask 96 "2025-07-15" "2025-07-15"

/-- A task whose due date precedes its start date across a month boundary. -/
def taskCrossMonth : Task := mkTask 95 "2025-09-15" "2025-08-20"

/-- A task that ends exactly one day after it starts. -/
def taskOneDayAfter : Task := mkTask 94 "2025-09-15" "2025-09-16"

/-- A task whose due date precedes its start date within one month. -/
def taskSameMonth : Task := mkTask 93 "2025-09-15" "2025-09-10"

/-- A task whose date strings are present (non-empty) but unparseable. -/
def taskBadDates : Task := mkTask 92 "notadate" "alsobad"

/-- A legacy-style task with an absent start date. -/
def taskNoStart : Task := mkTask 91 "" "2025-10-01"

/-! Helper lemmas about the due-date comparator and the stable sort. -/

theorem jsLeTime_total (x y : Option Int) : jsLeTime x y = true ∨ jsLeTime y x = true := by
  cases x <;> cases y <;> simp [jsLeTime]
  omega

theorem jsLeTime_trans {x y z : Option Int} (hxy : jsLeTime x y = true)
    (hyz : jsLeTime y z = true) : jsLeTime x z = true := by
  cases x <;> cases y <;> cases z <;> simp_all [jsLeTime]
  omega

theorem dueLe_total (a b : Task) : dueLe a b = true ∨ dueLe b a = true :=
  jsLeTime_total _ _

theorem dueLe_trans {a b c : Task} (hab : dueLe a b = true) (hbc : dueLe b c = true) :
    dueLe a c = true :=
  jsLeTime_trans hab hbc

theorem orderedInsertDue_perm (a : Task) (l : List Task) :
    (orderedInsertDue a l).Perm (a :: l) := by
  induction l with
  | nil => simp [orderedInsertDue]
  | cons b l ih =>
      by_cases h : dueLe a b
      · simp [orderedInsertDue, h]
      · simp only [orderedInsertDue, if_neg h]
        exact (ih.cons b).trans (List.Perm.swap a b l)

theorem mem_orderedInsertDue {x a : Task} {l : List Task}
    (h : x ∈ orderedInsertDue a l) : x = a ∨ x ∈ l := by
  have := (orderedInsertDue_perm a l).mem_iff.mp h
  simpa using this

theorem sortByDue_perm (l : List Task) : (sortByDue l).Perm l := by
  induction l with
  | nil => simp [sortByDue]
  | cons a l ih => exact (orderedInsertDue_perm a (sortByDue l)).trans (ih.cons a)

theorem sortByDue_cons (a : Task) (l : List Task) :
    sortByDue (a :: l) = orderedInsertDue a (sortByDue l) := rfl

theorem orderedInsertDue_cons (a b : Task) (l : List Task) :
    orderedInsertDue a (b :: l) =
      if dueLe a b then a :: b :: l else b :: orderedInsertDue a l := rfl

theorem duSorted_orderedInsertDue (a : Task) {l : List Task} (h : duSorted l) :
    duSorted (orderedInsertDue a l) := by
  induction l with
  | nil => simp [orderedInsertDue, duSorted]
  | cons b l ih =>
      rcases List.pairwise_cons.mp h with ⟨hb, hl⟩
      rw [orderedInsertDue_cons]
      by_cases hab : dueLe a b
      · rw [if_pos hab]
        refine List.pairwise_cons.mpr ⟨?_, h⟩
        intro x hx
        rcases List.mem_cons.mp hx with rfl | hx
        · exact hab
        · exact dueLe_trans hab (hb x hx)
      · rw [if_neg hab]
        refine List.pairwise_cons.mpr ⟨?_, ih hl⟩
        intro x hx
        rcases mem_orderedInsertDue hx with rfl | hx
        · rcases dueLe_total x b with htot | htot
          · exact absurd htot hab
          · exact htot
        · exact hb x hx

theorem duSorted_sortByDue (l : List Task) : duSorted (sortByDue l) := by
  induction l with
  | nil => simp [sortByDue, duSorted]
  | cons a l ih => exact duSorted_orderedInsertDue a ih

theorem orderedInsertDue_eq_cons {a : Task} {l : List Task}
    (h : ∀ b, l.head? = some b → dueLe a b = true) : orderedInsertDue a l = a :: l := by
  cases l with
  | nil => rfl
  | cons b l => simp [orderedInsertDue, h b rfl]

/-- Stability of the modelled sort: appending a task to an already-sorted list
and re-sorting inserts the new task after every existing task whose due date
is less than or equal to the new one, leaving the rest untouched. -/
theorem sortByDue_append_singleton (t : Task) :
    ∀ l : List Task, duSorted l →
      sortByDue (l ++ [t]) =
        l.takeWhile (fun a => dueLe a t) ++ t :: l.dropWhile (fun a => dueLe a t) := by
  intro l
  induction l with
  | nil => intro _; rfl
  | cons a l ih =>
      intro h
      rcases List.pairwise_cons.mp h with ⟨ha, hl⟩
      rw [List.cons_append, sortByDue_cons, ih hl]
      by_cases hat : dueLe a t
      · rw [List.takeWhile_cons_of_pos (p := fun x => dueLe x t) hat,
          List.dropWhile_cons_of_pos (p := fun x => dueLe x t) hat, List.cons_append,
          orderedInsertDue_eq_cons]
        intro b hb
        cases htw : l.takeWhile (fun x => dueLe x t) with
        | nil =>
            rw [htw] at hb
            simp only [List.nil_append, List.head?_cons, Option.some.injEq] at hb
            exact hb ▸ hat
        | cons c cs =>
            rw [htw] at hb
            simp only [List.cons_append, List.head?_cons, Option.some.injEq] at hb
            have hc : c ∈ l.takeWhile (fun x => dueLe x t) := by
              rw [htw]; exact List.mem_cons_self c cs
            have hcl : c ∈ l := (List.takeWhile_prefix (fun x => dueLe x t)).subset hc
            exact hb ▸ ha c hcl
      · have htw : l.takeWhile (fun x => dueLe x t) = [] := by
          cases htw2 : l.takeWhile (fun x => dueLe x t) with
          | nil => rfl
          | cons c cs =>
              exfalso
              have hc : c ∈ l.takeWhile (fun x => dueLe x t) := by
                rw [htw2]; exact List.mem_cons_self c cs
              have hcl : c ∈ l := (List.takeWhile_prefix (fun x => dueLe x t)).subset hc
              have hct : dueLe c t = true :=
                List.mem_takeWhile_imp (p := fun x => dueLe x t) hc
              exact hat (dueLe_trans (ha c hcl) hct)
        have hdw : l.dropWhile (fun x => dueLe x t) = l := by
          have hcat := List.takeWhile_append_dropWhile (fun x => dueLe x t) l
          rw [htw] at hcat
          simpa using hcat
        rw [htw, hdw, List.takeWhile_cons_of_neg (p := fun x => dueLe x t) (by simp [hat]),
          List.dropWhile_cons_of_neg (p := fun x => dueLe x t) (by simp [hat])]
        simp only [List.nil_append]
        have hoi : orderedInsertDue a (t :: l) = t :: orderedInsertDue a l := by
          simp [orderedInsertDue, hat]
        rw [hoi, orderedInsertDue_eq_cons]
        intro b hb
        cases l with
        | nil => simp at hb
        | cons c cs =>
            simp only [List.head?_cons, Option.some.injEq] at hb
            exact hb ▸ ha c (List.mem_cons_self c cs)

/-! Helper lemmas about the period scan of `handleAddTask`. -/

theorem insertLoop_nil (ty : String) (t : Task) : insertLoop ty t [] = none := rfl

theorem insertLoop_cons (ty : String) (t : Task) (per : Period) (rest : List Period) :
    insertLoop ty t (per :: rest) =
      if jsGeNat (taskDueMonth t) (periodMonth ty per) then
        some ({ per with tasks := sortByDue (per.tasks ++ [t]) } :: rest)
      else
        (insertLoop ty t rest).map (per :: ·) := rfl

theorem insertLoop_eq_none (ty : String) (t : Task) :
    ∀ ps : List Period, (∀ per ∈ ps, jsGeNat (taskDueMonth t) (periodMonth ty per) = false) →
      insertLoop ty t ps = none := by
  intro ps
  induction ps with
  | nil => intro _; rfl
  | cons per rest ih =>
      intro h
      rw [insertLoop_cons, if_neg (by simp [h per (List.mem_cons_self per rest)]),
        ih fun q hq => h q (List.mem_cons_of_mem per hq)]
      rfl

theorem insertLoop_first_match (ty : String) (t : Task) (per : Period) (post : List Period) :
    ∀ pre : List Period, (∀ q ∈ pre, jsGeNat (taskDueMonth t) (periodMonth ty q) = false) →
      jsGeNat (taskDueMonth t) (periodMonth ty per) = true →
      insertLoop ty t (pre ++ per :: post) =
        some (pre ++ { per with tasks := sortByDue (per.tasks ++ [t]) } :: post) := by
  intro pre
  induction pre with
  | nil =>
      intro _ hper
      rw [List.nil_append, insertLoop_cons, if_pos hper, List.nil_append]
  | cons q pre ih =>
      intro hpre hper
      rw [List.cons_append, insertLoop_cons,
        if_neg (by simp [hpre q (List.mem_cons_self q pre)]),
        ih (fun r hr => hpre r (List.mem_cons_of_mem q hr)) hper]
      rfl

theorem insertLoop_some_spec (ty : String) (t : Task) :
    ∀ ps qs : List Period, insertLoop ty t ps = some qs →
      ∃ pre per post,
        ps = pre ++ per :: post ∧
        qs = pre ++ { per with tasks := sortByDue (per.tasks ++ [t]) } :: post := by
  intro ps
  induction ps with
  | nil => intro qs h; simp [insertLoop_nil] at h
  | cons per rest ih =>
      intro qs h
      rw [insertLoop_cons] at h
      by_cases hc : jsGeNat (taskDueMonth t) (periodMonth ty per) = true
      · rw [if_pos hc] at h
        exact ⟨[], per, rest, rfl, (Option.some.injEq _ _).mp h |>.symm⟩
      · rw [if_neg hc] at h
        rcases Option.map_eq_some.mp h with ⟨qs2, hqs2, rfl⟩
        rcases ih qs2 hqs2 with ⟨pre, mper, post, hdec, hres⟩
        exact ⟨per :: pre, mper, post, by rw [hdec, List.cons_append],
          by rw [hres, List.cons_append]⟩

/-! Helper lemmas about `List.findIdx?` (which carries a start-index
accumulator in this Lean version). -/

theorem findIdx?_go_none {α : Type} (p : α → Bool) :
    ∀ (l : List α) (i : Nat), (∀ x ∈ l, p x = false) → List.findIdx? p l i = none := by
  intro l
  induction l with
  | nil => intro i _; simp
  | cons a l ih =>
      intro i h
      rw [List.findIdx?_cons, if_neg (by simp [h a (List.mem_cons_self a l)])]
      exact ih (i + 1) fun x hx => h x (List.mem_cons_of_mem a hx)

theorem findIdx?_go_first {α : Type} (p : α → Bool) :
    ∀ (l : List α) (k : Nat) (x : α) (i : Nat), l[k]? = some x → p x = true →
      (∀ j y, j < k → l[j]? = some y → p y = false) →
      List.findIdx? p l i = some (i + k) := by
  intro l
  induction l with
  | nil => intro k x i h; simp at h
  | cons a l ih =>
      intro k x i hk hp hfirst
      cases k with
      | zero =>
          simp only [List.getElem?_cons_zero, Option.some.injEq] at hk
          rw [List.findIdx?_cons, if_pos (hk ▸ hp)]
          simp
      | succ k2 =>
          have ha : p a = false := hfirst 0 a (Nat.succ_pos k2) (by simp)
          rw [List.findIdx?_cons, if_neg (by simp [ha])]
          have hk2 : l[k2]? = some x := by simpa using hk
          have hfirst2 : ∀ j y, j < k2 → l[j]? = some y → p y = false := by
            intro j y hj hy
            exact hfirst (j + 1) y (Nat.succ_lt_succ hj) (by simpa using hy)
          rw [ih k2 x (i + 1) hk2 hp hfirst2]
          congr 1
          omega

/-! Unfolding lemmas for `handleAddTask`. -/

theorem handleAddTask_some (p : Plan) (t : Task) (qs : List Period)
    (h : insertLoop p.termYear t p.periods = some qs) :
    handleAddTask p t = { p with periods := qs } := by
  unfold handleAddTask
  rw [h]

theorem handleAddTask_none_nil (p : Plan) (t : Task)
    (hn : insertLoop p.termYear t p.periods = none) (hnil : p.periods = []) :
    handleAddTask p t = { p with periods := [{ periodName := "General", tasks := [t] }] } := by
  unfold handleAddTask
  rw [hn, hnil]

theorem handleAddTask_none_cons (p : Plan) (t : Task) (p0 : Period) (rest : List Period)
    (hn : insertLoop p.termYear t p.periods = none) (hcons : p.periods = p0 :: rest) :
    handleAddTask p t =
      { p with periods := { p0 with tasks := sortByDue (p0.tasks ++ [t]) } :: rest } := by
  unfold handleAddTask
  rw [hn, hcons]

theorem handleAddTask_termYear (p : Plan) (t : Task) :
    (handleAddTask p t).termYear = p.termYear := by
  rcases p with ⟨ty, ch, ps⟩
  unfold handleAddTask
  cases insertLoop ty t ps <;> cases ps <;> rfl

theorem handleAddTask_chairperson (p : Plan) (t : Task) :
    (handleAddTask p t).chairperson = p.chairperson := by
  rcases p with ⟨ty, ch, ps⟩
  unfold handleAddTask
  cases insertLoop ty t ps <;> cases ps <;> rfl

/-- Whatever branch `handleAddTask` takes on a plan with at least one period,
its effect is to replace exactly one period by that period with the new task
pushed and the list re-sorted. -/
theorem addTask_decomposition (p : Plan) (t : Task) (h : p.periods ≠ []) :
    ∃ pre per post,
      p.periods = pre ++ per :: post ∧
      (handleAddTask p t).periods =
        pre ++ { per with tasks := sortByDue (per.tasks ++ [t]) } :: post := by
  cases hil : insertLoop p.termYear t p.periods with
  | some qs =>
      rcases insertLoop_some_spec p.termYear t p.periods qs hil with ⟨pre, per, post, h1, h2⟩
      refine ⟨pre, per, post, h1, ?_⟩
      rw [handleAddTask_some p t qs hil, h2]
  | none =>
      cases hp : p.periods with
      | nil => exact absurd hp h
      | cons p0 rest =>
          refine ⟨[], p0, rest, rfl, ?_⟩
          rw [handleAddTask_none_cons p t p0 rest hil hp, List.nil_append]

/-! The claims. -/

/-- C1: period assignment is a first-match-wins linear scan in the existing
period order — the new task is inserted into the first period whose reference
month is less than or equal to the task's due-date month (`getMonth`
numbers); later periods are never considered.  The worked example (term
2025-2026, reference months August and November, task due 2025-10-01 landing
in the August period) is the witness below. -/
theorem addTask_first_match_wins (p : Plan) (t : Task) (pre : List Period) (per : Period)
    (post : List Period) (hdec : p.periods = pre ++ per :: post)
    (hpre : ∀ q ∈ pre, jsGeNat (taskDueMonth t) (periodMonth p.termYear q) = false)
    (hper : jsGeNat (taskDueMonth t) (periodMonth p.termYear per) = true) :
    handleAddTask p t =
      { p with
        periods := pre ++ { per with tasks := sortByDue (per.tasks ++ [t]) } :: post } := by
  have h := insertLoop_first_match p.termYear t per post pre hpre hper
  rw [← hdec] at h
  exact handleAddTask_some p t _ h

/-- Witness for C1: term 2025-2026, periods with reference months August and
November, new task due 2025-10-01 → inserted into the August period (sorted
after the existing 2025-08-15 task); the November period is untouched. -/
theorem addTask_first_match_wins_witness :
    handleAddTask planAugNov taskOct =
      { termYear := "2025-2026", chairperson := "Chair",
        periods := [ { periodName := "Post-Course",
                       tasks := [mkTask 1 "2025-08-01" "2025-08-15", taskOct] },
                     periodNov ] } :=
  (addTask_first_match_wins planAugNov taskOct [] periodAug [periodNov] rfl
    (by intro q hq; simp at hq) (by decide)).trans (by decide)

/-- C2 counterexample: with reference months [8, 11, 2, 5] (Aug, Nov, Feb,
May) and a new task due 2025-11-20 (November), the task does NOT land in the
period whose reference month is November — it lands in the first (August)
period, whose reference month 8 already satisfies 11 ≥ 8; the November period
is returned unchanged. -/
theorem november_task_cex :
    (handleAddTask planFour taskNov).periods.map (fun per => decide (taskNov ∈ per.tasks)) =
      [true, false, false, false] ∧
    (handleAddTask planFour taskNov).periods[1]? = planFour.periods[1]? := by decide

/-- C2 amended: the November-due task is assigned to the first period
(reference month 8) by the first-match scan; the periods with reference
months 11, 2 and 5 are all unchanged (in particular it is still not assigned
to the reference-month-2 or reference-month-5 periods). -/
theorem november_task_lands_in_august_period :
    handleAddTask planFour taskNov =
      { termYear := "2025-2026", chairperson := "Chair",
        periods := [ { periodName := "A",
                       tasks := [mkTask 1 "2025-08-01" "2025-08-05", taskNov] },
                     { periodName := "B", tasks := [mkTask 2 "2025-11-01" "2025-11-05"] },
                     { periodName := "C", tasks := [mkTask 3 "2026-02-01" "2026-02-05"] },
                     { periodName := "D", tasks := [mkTask 4 "2026-05-01" "2026-05-05"] } ] } := by
  decide

/-- C3 counterexample: under term 2025-2026, a period with no tasks gets
reference month 0 (January, the month of `new Date("2025")`), not 7 (August,
the month an August-due first task would give). -/
theorem empty_period_month_cex :
    periodMonth "2025-2026" { periodName := "Empty", tasks := [] } = some 0 ∧
    jsGetMonth (jsNewDate "2025-08-01") = some 7 ∧
    (some 0 : Option Nat) ≠ some 7 := by decide

/-- C3 amended: a period with no tasks gets as reference month the month of
`new Date(termYear.split('-')[0])`, i.e. January 1 of the term label's first
year — January (month index 0) for the 2025-2026 term — not August. -/
theorem empty_period_month (ty : String) (per : Period) (h : per.tasks = []) :
    periodMonth ty per = jsGetMonth (jsNewDate (splitFirst ty)) ∧
    (ty = "2025-2026" → periodMonth ty per = some 0) := by
  have h1 : periodMonth ty per = jsGetMonth (jsNewDate (splitFirst ty)) := by
    unfold periodMonth
    rw [h]
    rfl
  refine ⟨h1, ?_⟩
  intro hty
  subst hty
  rw [h1]
  decide

/-- Witness for C3 amended at a concrete empty period of the 2025-2026 term. -/
theorem empty_period_month_witness :
    periodMonth "2025-2026" { periodName := "NoTasks", tasks := [] } =
      jsGetMonth (jsNewDate (splitFirst "2025-2026")) ∧
    periodMonth "2025-2026" { periodName := "NoTasks", tasks := [] } = some 0 :=
  ⟨(empty_period_month "2025-2026" { periodName := "NoTasks", tasks := [] } rfl).1,
   (empty_period_month "2025-2026" { periodName := "NoTasks", tasks := [] } rfl).2 rfl⟩

/-- C4: when no period matches (the new task's due-date month is below every
period's reference month, so the scan finds nothing), the task is added to
the first period when the plan has at least one period, and a single new
period "General" holding exactly this task is created when it has none. -/
theorem addTask_fallback (p : Plan) (t : Task)
    (h : ∀ per ∈ p.periods, jsGeNat (taskDueMonth t) (periodMonth p.termYear per) = false) :
    (p.periods = [] →
      (handleAddTask p t).periods = [{ periodName := "General", tasks := [t] }]) ∧
    (∀ p0 rest, p.periods = p0 :: rest →
      (handleAddTask p t).periods =
        { p0 with tasks := sortByDue (p0.tasks ++ [t]) } :: rest ∧
      (sortByDue (p0.tasks ++ [t])).Perm (t :: p0.tasks)) := by
  have hn : insertLoop p.termYear t p.periods = none := insertLoop_eq_none p.termYear t p.periods h
  constructor
  · intro hnil
    rw [handleAddTask_none_nil p t hn hnil]
  · intro p0 rest hcons
    constructor
    · rw [handleAddTask_none_cons p t p0 rest hn hcons]
    · exact (sortByDue_perm _).trans (List.perm_append_singleton t p0.tasks)

/-- Witness for C4: a task due 2026-01-15 (`getMonth` 0) matches no reference
month of the worked example, so it is pushed into the first (August) period,
where the sort places it last. -/
theorem addTask_fallback_witness :
    (handleAddTask planAugNov taskJan).periods =
      { periodAug with tasks := sortByDue (periodAug.tasks ++ [taskJan]) } :: [periodNov] ∧
    (sortByDue (periodAug.tasks ++ [taskJan])).Perm (taskJan :: periodAug.tasks) :=
  (addTask_fallback planAugNov taskJan (by decide)).2 periodAug [periodNov] rfl

/-- C5: period assignment is a pure frame-respecting update — the result
keeps the term-year and chairperson, decomposes the old and new period lists
around a single changed period, the changed period holds exactly its former
tasks plus the new one, and globally the new plan's tasks are a permutation
of the old tasks plus the new one (nothing duplicated or dropped). -/
theorem addTask_frame (p : Plan) (t : Task) (h : p.periods ≠ []) :
    ∃ pre per post,
      p.periods = pre ++ per :: post ∧
      (handleAddTask p t).periods =
        pre ++ { per with tasks := sortByDue (per.tasks ++ [t]) } :: post ∧
      (sortByDue (per.tasks ++ [t])).Perm (t :: per.tasks) ∧
      (handleAddTask p t).termYear = p.termYear ∧
      (handleAddTask p t).chairperson = p.chairperson ∧
      (handleAddTask p t).allTasks.Perm (t :: p.allTasks) := by
  rcases addTask_decomposition p t h with ⟨pre, per, post, h1, h2⟩
  refine ⟨pre, per, post, h1, h2,
    (sortByDue_perm _).trans (List.perm_append_singleton t per.tasks),
    handleAddTask_termYear p t, handleAddTask_chairperson p t, ?_⟩
  have hA : (handleAddTask p t).allTasks =
      pre.flatMap Period.tasks ++ (sortByDue (per.tasks ++ [t]) ++ post.flatMap Period.tasks) := by
    unfold Plan.allTasks
    rw [h2, List.flatMap_append, List.flatMap_cons]
  have hB : p.allTasks = pre.flatMap Period.tasks ++ (per.tasks ++ post.flatMap Period.tasks) := by
    unfold Plan.allTasks
    rw [h1, List.flatMap_append, List.flatMap_cons]
  rw [hA, hB]
  have step1 : (pre.flatMap Period.tasks ++ (sortByDue (per.tasks ++ [t]) ++
      post.flatMap Period.tasks)).Perm
      (pre.flatMap Period.tasks ++ ((per.tasks ++ [t]) ++ post.flatMap Period.tasks)) :=
    List.Perm.append_left _ (List.Perm.append_right _ (sortByDue_perm (per.tasks ++ [t])))
  refine step1.trans ?_
  have step2 : pre.flatMap Period.tasks ++ ((per.tasks ++ [t]) ++ post.flatMap Period.tasks) =
      (pre.flatMap Period.tasks ++ per.tasks) ++ (t :: post.flatMap Period.tasks) := by
    simp [List.append_assoc]
  rw [step2]
  refine List.perm_middle.trans ?_
  simp [List.append_assoc]

/-- Witness for C5 at the worked example: adding the October task to the
2025-2026 two-period plan. -/
theorem addTask_frame_witness :
    ∃ pre per post,
      planAugNov.periods = pre ++ per :: post ∧
      (handleAddTask planAugNov taskOct).periods =
        pre ++ { per with tasks := sortByDue (per.tasks ++ [taskOct]) } :: post ∧
      (sortByDue (per.tasks ++ [taskOct])).Perm (taskOct :: per.tasks) ∧
      (handleAddTask planAugNov taskOct).termYear = planAugNov.termYear ∧
      (handleAddTask planAugNov taskOct).chairperson = planAugNov.chairperson ∧
      (handleAddTask planAugNov taskOct).allTasks.Perm (taskOct :: planAugNov.allTasks) :=
  addTask_frame planAugNov taskOct (by decide)

/-- C6: the destination period comes out sorted ascending by due date, and
when its tasks were already sorted the stable re-sort only splices the new
task in at its position, leaving the relative order of the pre-existing tasks
unchanged (`takeWhile`/`dropWhile` decomposition).  The date-validity
hypotheses confine the statement to inputs on which the modelled comparator
agrees with the JS engine (a `NaN` comparator makes the engine's order
implementation-defined). -/
theorem addTask_destination_sorted (p : Plan) (t : Task) (h : p.periods ≠ [])
    (_hvalid : ∀ per ∈ p.periods, ∀ tk ∈ per.tasks, (jsNewDate tk.dueDate).isSome = true)
    (_ht : (jsNewDate t.dueDate).isSome = true) :
    ∃ pre per post,
      p.periods = pre ++ per :: post ∧
      (handleAddTask p t).periods =
        pre ++ { per with tasks := sortByDue (per.tasks ++ [t]) } :: post ∧
      duSorted (sortByDue (per.tasks ++ [t])) ∧
      (duSorted per.tasks →
        sortByDue (per.tasks ++ [t]) =
          per.tasks.takeWhile (fun a => dueLe a t) ++
            t :: per.tasks.dropWhile (fun a => dueLe a t)) := by
  rcases addTask_decomposition p t h with ⟨pre, per, post, h1, h2⟩
  exact ⟨pre, per, post, h1, h2, duSorted_sortByDue _,
    fun hs => sortByDue_append_singleton t per.tasks hs⟩

/-- Witness for C6 at the worked example (all due dates parse). -/
theorem addTask_destination_sorted_witness :
    ∃ pre per post,
      planAugNov.periods = pre ++ per :: post ∧
      (handleAddTask planAugNov taskOct).periods =
        pre ++ { per with tasks := sortByDue (per.tasks ++ [taskOct]) } :: post ∧
      duSorted (sortByDue (per.tasks ++ [taskOct])) ∧
      (duSorted per.tasks →
        sortByDue (per.tasks ++ [taskOct]) =
          per.tasks.takeWhile (fun a => dueLe a taskOct) ++
            taskOct :: per.tasks.dropWhile (fun a => dueLe a taskOct)) :=
  addTask_destination_sorted planAugNov taskOct (by decide) (by decide) (by decide)

/-! Evaluation lemmas for the `NaN`-aware rational arithmetic. -/

theorem jqDiv_some_some (x y : ℚ) (hy : y ≠ 0) : jqDiv (some x) (some y) = some (x / y) := by
  simp [jqDiv, hy]

theorem timeQ_some (t : Int) : timeQ (some t) = some ((t : ℚ)) := rfl

theorem jqSub_some_some (x y : ℚ) : jqSub (some x) (some y) = some (x - y) := rfl

theorem jqAdd_some_some (x y : ℚ) : jqAdd (some x) (some y) = some (x + y) := rfl

theorem jqMul_some_some (x y : ℚ) : jqMul (some x) (some y) = some (x * y) := rfl

theorem jqLt_some_some (x y : ℚ) : jqLt (some x) (some y) = decide (x < y) := rfl

theorem jsMax_some (c x : ℚ) : jsMax c (some x) = some (max c x) := rfl

theorem jsNewDate_empty : jsNewDate "" = none := by decide

/-- Closed-form value of `getBarPosition` when both dates are present and
valid and the term span is a nonzero number of days; `te` is the time value
of the (possibly `setDate`-rewritten) task end. -/
theorem getBarPosition_eq_of_valid (ty : String) (task : Task) (ts te t0 : Int) (T : ℚ)
    (hsne : task.startDate ≠ "") (hdne : task.dueDate ≠ "")
    (hts : jsNewDate task.startDate = some ts)
    (ht0 : termStartDate ty = some t0)
    (hT : totalDaysQ ty = some T) (hT0 : T ≠ 0)
    (hte : (if jsLtDate (jsNewDate task.dueDate) (jsNewDate task.startDate) then
              jsSetDate (jsNewDate task.dueDate) ((jsGetDate (jsNewDate task.startDate)).map (· + 1))
            else jsNewDate task.dueDate) = some te) :
    getBarPosition ty task =
      { left := some (max 0 ((((ts : ℚ) - (t0 : ℚ)) / ((msPerDay : Int) : ℚ)) / T * 100)),
        width := some (max (1/2)
          ((if ((te : ℚ) - (ts : ℚ)) / ((msPerDay : Int) : ℚ) + 1 < 1 then 1
            else ((te : ℚ) - (ts : ℚ)) / ((msPerDay : Int) : ℚ) + 1) / T * 100)) } := by
  have hms : ((msPerDay : Int) : ℚ) ≠ 0 := by norm_num [msPerDay]
  simp only [getBarPosition, if_neg (not_or.mpr ⟨hsne, hdne⟩)]
  rw [hte]
  simp only [hts, ht0, hT, jsGetTime, timeQ_some, jqSub_some_some,
    jqDiv_some_some _ _ hms, jqDiv_some_some _ _ hT0, jqAdd_some_some,
    jqMul_some_some, jqLt_some_some, jsMax_some, decide_eq_true_eq]
  split <;>
    simp [jqDiv_some_some _ _ hT0, jqMul_some_some, jsMax_some]

/-- A defined total-day count forces a valid term start date. -/
theorem termStart_of_totalDays (ty : String) (T : ℚ) (hT : totalDaysQ ty = some T) :
    ∃ t0, termStartDate ty = some t0 := by
  cases h0 : termStartDate ty with
  | some t0 => exact ⟨t0, rfl⟩
  | none =>
      exfalso
      unfold totalDaysQ at hT
      rw [h0] at hT
      cases jsGetTime (termEndDate ty) <;> simp [timeQ, jqSub, jqDiv, jsGetTime] at hT

/-- The 2025-2026 term spans 364 days (Aug 1 2025 to Jul 31 2026). -/
theorem totalDays_2025 : totalDaysQ "2025-2026" = some 364 := by
  have h1 : termStartDate "2025-2026" = some 1754006400000 := by decide
  have h2 : termEndDate "2025-2026" = some 1785456000000 := by decide
  unfold totalDaysQ
  rw [h1, h2]
  show jqDiv (jqSub (timeQ (some 1785456000000)) (timeQ (some 1754006400000)))
      (some ((msPerDay : Int) : ℚ)) = some 364
  rw [timeQ_some, timeQ_some, jqSub_some_some, jqDiv_some_some _ _ (by norm_num [msPerDay])]
  norm_num [msPerDay]

/-- C7: for a task with both date fields present and parsing to valid dates
(and a term whose day span is a positive number), the layout output is always
a pair of finite percentages with `left` clamped to at least `0` and `width`
floored at `0.5`; moreover a start date strictly before the term start gives
`left = 0` exactly.  A task with `startDate = dueDate` is an instance of the
width floor (see the witness). -/
theorem getBarPosition_clamps (ty : String) (task : Task) (T : ℚ)
    (hT : totalDaysQ ty = some T) (hTpos : 0 < T)
    (hs : (jsNewDate task.startDate).isSome = true)
    (hd : (jsNewDate task.dueDate).isSome = true) :
    ∃ l w, getBarPosition ty task = { left := some l, width := some w } ∧
      0 ≤ l ∧ 1/2 ≤ w ∧
      (∀ ts t0, jsGetTime (jsNewDate task.startDate) = some ts →
        jsGetTime (termStartDate ty) = some t0 → ts < t0 → l = 0) := by
  obtain ⟨ts, hts⟩ := Option.isSome_iff_exists.mp hs
  obtain ⟨td, htd⟩ := Option.isSome_iff_exists.mp hd
  have hsne : task.startDate ≠ "" := by
    intro he
    rw [he, jsNewDate_empty] at hts
    exact Option.noConfusion hts
  have hdne : task.dueDate ≠ "" := by
    intro he
    rw [he, jsNewDate_empty] at htd
    exact Option.noConfusion htd
  obtain ⟨t0, ht0⟩ := termStart_of_totalDays ty T hT
  have hte : ∃ te, (if jsLtDate (jsNewDate task.dueDate) (jsNewDate task.startDate) then
      jsSetDate (jsNewDate task.dueDate) ((jsGetDate (jsNewDate task.startDate)).map (· + 1))
    else jsNewDate task.dueDate) = some te := by
    by_cases hlt : jsLtDate (jsNewDate task.dueDate) (jsNewDate task.startDate) = true
    · rw [if_pos hlt, htd, hts]
      exact ⟨_, rfl⟩
    · rw [if_neg hlt, htd]
      exact ⟨td, rfl⟩
  obtain ⟨te, hte⟩ := hte
  have hT0 : T ≠ 0 := ne_of_gt hTpos
  rw [getBarPosition_eq_of_valid ty task ts te t0 T hsne hdne hts ht0 hT hT0 hte]
  refine ⟨_, _, rfl, le_max_left 0 _, le_max_left (1/2) _, ?_⟩
  intro ts2 t02 hts2 ht02 hlt2
  have hts2b : jsNewDate task.startDate = some ts2 := hts2
  have ht02b : termStartDate ty = some t02 := ht02
  have hts3 : ts2 = ts := Option.some.inj (hts2b.symm.trans hts)
  have ht03 : t02 = t0 := Option.some.inj (ht02b.symm.trans ht0)
  subst hts3
  subst ht03
  have h1 : ((ts2 : ℚ) - (t02 : ℚ)) < 0 := sub_neg.mpr (by exact_mod_cast hlt2)
  have h2 : ((ts2 : ℚ) - (t02 : ℚ)) / ((msPerDay : Int) : ℚ) < 0 :=
    div_neg_of_neg_of_pos h1 (by norm_num [msPerDay])
  have h3 : ((ts2 : ℚ) - (t02 : ℚ)) / ((msPerDay : Int) : ℚ) / T < 0 :=
    div_neg_of_neg_of_pos h2 hTpos
  have h4 : ((ts2 : ℚ) - (t02 : ℚ)) / ((msPerDay : Int) : ℚ) / T * 100 < 0 :=
    mul_neg_of_neg_of_pos h3 (by norm_num)
  exact max_eq_left (le_of_lt h4)

/-- Witness for C7: 2025-2026 term (364-day span), task starting and due
2025-07-15 — before the term start — yields `left = 0` (clamped) and
`width = 1/2` (the floor, since a one-day bar is only ~0.27% of the span). -/
theorem getBarPosition_clamps_witness :
    (∃ l w, getBarPosition "2025-2026" taskJuly = { left := some l, width := some w } ∧
      0 ≤ l ∧ 1/2 ≤ w ∧
      (∀ ts t0, jsGetTime (jsNewDate taskJuly.startDate) = some ts →
        jsGetTime (termStartDate "2025-2026") = some t0 → ts < t0 → l = 0)) ∧
    getBarPosition "2025-2026" taskJuly = { left := some 0, width := some (1/2) } := by
  refine ⟨getBarPosition_clamps "2025-2026" taskJuly 364 totalDays_2025 (by norm_num)
    (by decide) (by decide), ?_⟩
  rw [getBarPosition_eq_of_valid "2025-2026" taskJuly 1752537600000 1752537600000
    1754006400000 364 (by decide) (by decide) (by decide) (by decide) totalDays_2025
    (by norm_num) (by decide)]
  norm_num [msPerDay, max_def]

/-- C8 counterexample: task starting 2025-09-15 with due date 2025-08-20
(due before start, in a different month).  `setDate` rewrites the due date to
2025-08-16 — still before the start — so the duration is clamped to the
1-day floor and the width is `0.5%`, whereas a task genuinely ending one day
after 2025-09-15 gets width `50/91 ≈ 0.549%`.  The widths differ, refuting
"the bar's width equals that of a task ending one day after it starts". -/
theorem setDate_cross_month_cex :
    jsLtDate (jsNewDate taskCrossMonth.dueDate) (jsNewDate taskCrossMonth.startDate) = true ∧
    getBarPosition "2025-2026" taskCrossMonth =
      { left := some (1125/91), width := some (1/2) } ∧
    getBarPosition "2025-2026" taskOneDayAfter =
      { left := some (1125/91), width := some (50/91) } ∧
    ((1/2 : ℚ) ≠ 50/91) := by
  refine ⟨by decide, ?_, ?_, by norm_num⟩
  · rw [getBarPosition_eq_of_valid "2025-2026" taskCrossMonth 1757894400000 1755302400000
      1754006400000 364 (by decide) (by decide) (by decide) (by decide) totalDays_2025
      (by norm_num) (by decide)]
    norm_num [msPerDay, max_def]
  · rw [getBarPosition_eq_of_valid "2025-2026" taskOneDayAfter 1757894400000 1757980800000
      1754006400000 364 (by decide) (by decide) (by decide) (by decide) totalDays_2025
      (by norm_num) (by decide)]
    norm_num [msPerDay, max_def]

/-- C8 amended: when the due date precedes the start date the code rewrites
the due date's day-of-month to the start date's day-of-month plus one —
relative to the due date's own month — and floors the duration at one day.
Exactly when that rewrite lands on the day after the start (`hset`; in
particular whenever both dates fall in the same calendar month) the duration
is 2 inclusive days and the bar's width equals that of a task ending one day
after it starts; across month boundaries it generally does not (see the
counterexample). -/
theorem clamped_duration_width (ty : String) (task : Task) (T : ℚ)
    (hT : totalDaysQ ty = some T) (hTpos : 0 < T)
    (hlt : jsLtDate (jsNewDate task.dueDate) (jsNewDate task.startDate) = true)
    (hsne : task.startDate ≠ "") (hdne : task.dueDate ≠ "")
    (hset : jsSetDate (jsNewDate task.dueDate)
        ((jsGetDate (jsNewDate task.startDate)).map (· + 1)) =
      (jsNewDate task.startDate).map (· + msPerDay)) :
    (getBarPosition ty task).width = some (max (1/2) (2 / T * 100)) ∧
    (getBarPosition ty task).width =
      jsMax (1/2) (jqMul (jqDiv (some 2) (totalDaysQ ty)) (some 100)) := by
  have hT0 : T ≠ 0 := ne_of_gt hTpos
  have hboth : ∃ ts td, jsNewDate task.startDate = some ts ∧ jsNewDate task.dueDate = some td := by
    cases hss : jsNewDate task.startDate with
    | none =>
        rw [hss] at hlt
        cases hdd : jsNewDate task.dueDate <;> rw [hdd] at hlt <;> simp [jsLtDate] at hlt
    | some ts =>
        cases hdd : jsNewDate task.dueDate with
        | none => rw [hss, hdd] at hlt; simp [jsLtDate] at hlt
        | some td => exact ⟨ts, td, rfl, rfl⟩
  obtain ⟨ts, td, hts, htd⟩ := hboth
  obtain ⟨t0, ht0⟩ := termStart_of_totalDays ty T hT
  have hte : (if jsLtDate (jsNewDate task.dueDate) (jsNewDate task.startDate) then
      jsSetDate (jsNewDate task.dueDate) ((jsGetDate (jsNewDate task.startDate)).map (· + 1))
    else jsNewDate task.dueDate) = some (ts + msPerDay) := by
    rw [if_pos hlt, hset, hts]
    rfl
  rw [getBarPosition_eq_of_valid ty task ts (ts + msPerDay) t0 T hsne hdne hts ht0 hT hT0 hte]
  have hE : (((ts + msPerDay : Int) : ℚ) - (ts : ℚ)) / ((msPerDay : Int) : ℚ) + 1 = 2 := by
    have hD : ((ts + msPerDay : Int) : ℚ) - (ts : ℚ) = ((msPerDay : Int) : ℚ) := by
      push_cast
      ring
    rw [hD, div_self (by norm_num [msPerDay])]
    norm_num
  constructor
  · rw [hE, if_neg (by norm_num)]
  · rw [hE, if_neg (by norm_num), hT, jqDiv_some_some _ _ hT0, jqMul_some_some, jsMax_some]

/-- Witness for C8 amended: due 2025-09-10 before start 2025-09-15, same
month, so the rewritten end is 2025-09-16 = start + 1 day and the width is
that of the genuine one-day-later bar, `50/91`. -/
theorem clamped_duration_width_witness :
    (getBarPosition "2025-2026" taskSameMonth).width = some (max (1/2) (2 / 364 * 100)) ∧
    (getBarPosition "2025-2026" taskSameMonth).width =
      jsMax (1/2) (jqMul (jqDiv (some 2) (totalDaysQ "2025-2026")) (some 100)) ∧
    (getBarPosition "2025-2026" taskSameMonth).width = some (50/91) := by
  have h := clamped_duration_width "2025-2026" taskSameMonth 364 totalDays_2025 (by norm_num)
    (by decide) (by decide) (by decide) (by decide)
  refine ⟨h.1, h.2, ?_⟩
  rw [h.1]
  norm_num [max_def]

/-- C9 counterexample: a task whose date strings are present (non-empty) but
unparseable does NOT get the absent-date fallback bar — it takes the main
branch, where every arithmetic step propagates `NaN`, and both output
percentages are `NaN` (`none`), not the pinned `1%` width. -/
theorem bad_dates_cex :
    taskBadDates.startDate ≠ "" ∧ taskBadDates.dueDate ≠ "" ∧
    getBarPosition "2025-2026" taskBadDates = { left := none, width := none } ∧
    (getBarPosition "2025-2026" taskBadDates).width ≠ some 1 := by decide

/-- C9 amended: `getBarPosition` is a total function (the model never throws
— every JS step here yields a number or `NaN`, never an exception): a task
with an absent (empty-string) start or due date gets the fallback bar with
width pinned to `1%`; but a task whose date fields are present and merely
unparseable takes the main branch and yields `NaN` (`none`) as its width
rather than the minimum-width fallback. -/
theorem getBarPosition_no_throw (ty : String) (task : Task) :
    (task.startDate = "" ∨ task.dueDate = "" → (getBarPosition ty task).width = some 1) ∧
    (task.startDate ≠ "" → task.dueDate ≠ "" →
      (jsNewDate task.startDate = none ∨ jsNewDate task.dueDate = none) →
      (getBarPosition ty task).width = none) := by
  constructor
  · intro h
    simp only [getBarPosition, if_pos h]
  · intro hs hd hn
    simp only [getBarPosition, if_neg (not_or.mpr ⟨hs, hd⟩)]
    rcases hn with h1 | h2
    · rw [h1]
      cases hdd : jsNewDate task.dueDate <;>
        simp [jsLtDate, jsSetDate, jsGetDate, jsGetTime, timeQ, jqSub, jqDiv, jqAdd,
          jqMul, jqLt, jsMax]
    · rw [h2]
      cases hss : jsNewDate task.startDate <;>
        simp [jsLtDate, jsSetDate, jsGetDate, jsGetTime, timeQ, jqSub, jqDiv, jqAdd,
          jqMul, jqLt, jsMax]

/-- Witness for C9 amended: a task with an absent start date gets the pinned
1% fallback width. -/
theorem getBarPosition_no_throw_witness :
    (getBarPosition "2025-2026" taskNoStart).width = some 1 :=
  (getBarPosition_no_throw "2025-2026" taskNoStart).1 (Or.inl rfl)

theorem updatePeriod_of_none (u : Task) (per : Period)
    (h : per.tasks.findIdx? (fun t => t.id == u.id) = none) : updatePeriod u per = per := by
  unfold updatePeriod
  rw [h]

theorem updatePeriod_of_some (u : Task) (per : Period) (k : Nat)
    (h : per.tasks.findIdx? (fun t => t.id == u.id) = some k) :
    updatePeriod u per = { per with tasks := per.tasks.set k u } := by
  unfold updatePeriod
  rw [h]

/-- C10: `handleTaskUpdate` keeps the term-year, chairperson, period count,
every period's name and the period order; in each period it replaces exactly
the first task whose id matches the updated task's (all other positions are
untouched); and when no task anywhere carries that id the resulting plan is
structurally equal to the input. -/
theorem handleTaskUpdate_frame (p : Plan) (u : Task) :
    (handleTaskUpdate p u).termYear = p.termYear ∧
    (handleTaskUpdate p u).chairperson = p.chairperson ∧
    (handleTaskUpdate p u).periods.length = p.periods.length ∧
    (∀ (i : Nat) (per per2 : Period), p.periods[i]? = some per →
      (handleTaskUpdate p u).periods[i]? = some per2 →
      per2.periodName = per.periodName ∧
      ((∀ tk ∈ per.tasks, tk.id ≠ u.id) → per2 = per) ∧
      (∀ (k : Nat) (tk : Task), per.tasks[k]? = some tk → tk.id = u.id →
        (∀ (j : Nat) (tj : Task), j < k → per.tasks[j]? = some tj → tj.id ≠ u.id) →
        per2.tasks = per.tasks.set k u ∧
        ∀ j : Nat, j ≠ k → per2.tasks[j]? = per.tasks[j]?)) ∧
    ((∀ per ∈ p.periods, ∀ tk ∈ per.tasks, tk.id ≠ u.id) → handleTaskUpdate p u = p) := by
  refine ⟨rfl, rfl, by simp [handleTaskUpdate], ?_, ?_⟩
  · intro i per per2 hper hper2
    have hmap : (handleTaskUpdate p u).periods[i]? =
        (p.periods[i]?).map (updatePeriod u) := by
      simp [handleTaskUpdate, List.getElem?_map]
    rw [hmap, hper, Option.map_some'] at hper2
    have hf : per2 = updatePeriod u per := (Option.some.inj hper2).symm
    refine ⟨?_, ?_, ?_⟩
    · rw [hf]
      unfold updatePeriod
      cases per.tasks.findIdx? (fun t => t.id == u.id) <;> rfl
    · intro hno
      have hnone : per.tasks.findIdx? (fun t => t.id == u.id) = none :=
        findIdx?_go_none _ per.tasks 0 (fun x hx => by simp [hno x hx])
      rw [hf, updatePeriod_of_none u per hnone]
    · intro k tk hk hid hfirst
      have hsome : per.tasks.findIdx? (fun t => t.id == u.id) = some k := by
        have h := findIdx?_go_first (fun t => t.id == u.id) per.tasks k tk 0 hk
          (by simp [hid]) (fun j y hj hy => by simp [hfirst j y hj hy])
        simpa using h
      rw [hf, updatePeriod_of_some u per k hsome]
      exact ⟨rfl, fun j hj => List.getElem?_set_ne (Ne.symm hj)⟩
  · intro hall
    have hmap : p.periods.map (updatePeriod u) = p.periods := by
      have h1 : ∀ per ∈ p.periods, updatePeriod u per = id per := by
        intro per hper
        have hnone : per.tasks.findIdx? (fun t => t.id == u.id) = none :=
          findIdx?_go_none _ per.tasks 0 (fun x hx => by simp [hall per hper x hx])
        simp [updatePeriod_of_none u per hnone]
      rw [List.map_congr_left h1, List.map_id]
    show { p with periods := p.periods.map (updatePeriod u) } = p
    rw [hmap]

/-- Witness for C10: updating with a task id (999) present nowhere in the
worked example leaves the plan structurally unchanged. -/
theorem handleTaskUpdate_frame_witness :
    handleTaskUpdate planAugNov (mkTask 999 "2025-01-01" "2025-01-02") = planAugNov :=
  (handleTaskUpdate_frame planAugNov (mkTask 999 "2025-01-01" "2025-01-02")).2.2.2.2 (by decide)

end AGMSC
